import Mathlib

/-!
Verification of the type-wrapping layer of `src/type/wrappers.js`
(`GraphQLList`, `GraphQLNonNull`, `lookupOrMake`, `wrapType`, the wrapper
`toString` implementations) together with the classifier predicates and
unwrap helpers that the file's test suite exercises.

JS object identity is modelled by a heap: named base types and wrapper
objects live in association lists indexed by numeric identities, and a
`TypeRef` is a reference into that heap.  Reference equality is equality
of `TypeRef`.  The memoization cache (`wrapperCache` in the source, a
WeakMap from inner type to a per-kind slot record) is an association
list from inner `TypeRef` to an inner association list from the spec
character to the wrapper's identity.  Fallible constructors return
`Except String`.

The predicates (`isType`, `isScalarType`, ..., `isInputType`,
`isOutputType`) and the unwrap helpers (`getNullableType`,
`getNamedType`) are imported by the source from `./definition`, which is
not part of the repository slice; those definitions are modelled from
the spec, as marked on each.
-/

namespace GraphQLWrappers

/-- The six named (non-wrapping) base variants of the type algebra. -/
inductive NamedKind
  | scalar
  | object
  | interface
  | union
  | enum
  | inputObject
deriving DecidableEq

/-- A named base type: an external collaborator exposing its variant and a
display name (the name is used only for rendering, never as a cache key). -/
structure NamedObj where
  kind : NamedKind
  name : String
deriving DecidableEq

/-- A reference (JS object identity) to a type value: either a named type
or a wrapper object, identified by a numeric identity. -/
inductive TypeRef
  | namedRef (id : Nat)
  | wrapRef (id : Nat)
deriving DecidableEq

/-- A wrapper object as allocated by `new GraphQLList(...)` /
`new GraphQLNonNull(...)`: which constructor made it is recorded as the
source's cache-key character (`']'` for List, `'!'` for NonNull), and
`ofType` is the inner type reference stored on the instance. -/
structure Wrapper where
  specChar : Char
  ofType : TypeRef
deriving DecidableEq

/-- The mutable world the wrapper layer works in: the externally supplied
named type objects, the wrapper objects allocated so far, the
`wrapperCache` WeakMap contents, and the next fresh object identity. -/
structure WState where
  namedObjs : List (Nat × NamedObj)
  wrappers : List (Nat × Wrapper)
  cache : List (TypeRef × List (Char × Nat))
  nextId : Nat
deriving DecidableEq

/-- First-match association-list lookup (models Map/WeakMap `get` and
plain-object property read). -/
def assoc {α β : Type} [DecidableEq α] : List (α × β) → α → Option β
  | [], _ => none
  | (k, v) :: rest, a => if k = a then some v else assoc rest a

/-- Association-list update (models Map/WeakMap `set` and plain-object
property write). -/
def setAssoc {α β : Type} [DecidableEq α] : List (α × β) → α → β → List (α × β)
  | [], a, b => [(a, b)]
  | (k, v) :: rest, a, b => if k = a then (a, b) :: rest else (k, v) :: setAssoc rest a b

/-- Modelled from the spec: `isType` (from the missing `./definition`) is
"true for any value that is a member of the Type algebra (any NamedType or
WrappingType instance)"; here, a reference that denotes a live object. -/
def isTypeRef (s : WState) (r : TypeRef) : Bool :=
  match r with
  | .namedRef i => (assoc s.namedObjs i).isSome
  | .wrapRef i => (assoc s.wrappers i).isSome

/-- Top-level NonNull discriminant check (modelled from the spec: the
`isNonNullType` predicate is true iff the top-level discriminant is
exactly NonNull, no unwrapping). -/
def isNonNullType (s : WState) (r : TypeRef) : Bool :=
  match r with
  | .wrapRef i =>
    match assoc s.wrappers i with
    | some w => w.specChar = '!'
    | none => false
  | .namedRef _ => false

/-- Top-level List discriminant check (modelled from the spec, as for
`isNonNullType`). -/
def isListType (s : WState) (r : TypeRef) : Bool :=
  match r with
  | .wrapRef i =>
    match assoc s.wrappers i with
    | some w => w.specChar = ']'
    | none => false
  | .namedRef _ => false

/-- Modelled from the spec: `assertType` (from the missing `./definition`)
returns its argument when `isType` holds and otherwise raises a
ValidationError. -/
def assertType (s : WState) (r : TypeRef) : Except String TypeRef :=
  if isTypeRef s r then .ok r
  else .error "ValidationError: expected a GraphQL type"

/-- Modelled from the spec: `assertNullableType` (from the missing
`./definition`) accepts only values satisfying "is a nullable type"
(a Type whose top-level discriminant is not NonNull) and raises a
ValidationError otherwise. -/
def assertNullableType (s : WState) (r : TypeRef) : Except String TypeRef :=
  if isTypeRef s r && !isNonNullType s r then .ok r
  else .error "ValidationError: expected a GraphQL nullable type"

/-- `lookupOrMake` from the source: fetch the per-inner-type slot record
from `wrapperCache` (creating it when absent), and return the slot for
`specChar`, constructing and storing a new wrapper there first when the
slot is empty.  Allocation of `new cons(ofType)` is modelled as taking
the next fresh identity. -/
def lookupOrMake (s : WState) (ofType : TypeRef) (specChar : Char) :
    TypeRef × WState :=
  let thisObjectMap := (assoc s.cache ofType).getD []
  match assoc thisObjectMap specChar with
  | some wid => (TypeRef.wrapRef wid, s)
  | none =>
    let wid := s.nextId
    (TypeRef.wrapRef wid,
      { s with
        wrappers := (wid, ⟨specChar, ofType⟩) :: s.wrappers
        cache := setAssoc s.cache ofType (setAssoc thisObjectMap specChar wid)
        nextId := wid + 1 })

/-- `GraphQLList(ofType)` called without `new` (the factory branch of the
source): assert the argument is a type, then go through the cache. -/
def GraphQLList (s : WState) (ofType : TypeRef) :
    Except String (TypeRef × WState) := do
  let _ ← assertType s ofType
  .ok (lookupOrMake s ofType ']')

/-- `new GraphQLList(ofType)` (the `this instanceof GraphQLList` branch):
validate and store `this.ofType = assertType(ofType)` on a fresh
instance; the cache is not consulted and not updated. -/
def newGraphQLList (s : WState) (ofType : TypeRef) :
    Except String (TypeRef × WState) := do
  let t ← assertType s ofType
  let wid := s.nextId
  .ok (TypeRef.wrapRef wid,
    { s with
      wrappers := (wid, ⟨']', t⟩) :: s.wrappers
      nextId := wid + 1 })

/-- `GraphQLNonNull(ofType)` called without `new`: assert the argument is
a nullable type, then go through the cache with key `'!'`. -/
def GraphQLNonNull (s : WState) (ofType : TypeRef) :
    Except String (TypeRef × WState) := do
  let _ ← assertNullableType s ofType
  .ok (lookupOrMake s ofType '!')

/-- `new GraphQLNonNull(ofType)`: validate and store
`this.ofType = assertNullableType(ofType)` on a fresh instance, without
touching the cache. -/
def newGraphQLNonNull (s : WState) (ofType : TypeRef) :
    Except String (TypeRef × WState) := do
  let t ← assertNullableType s ofType
  let wid := s.nextId
  .ok (TypeRef.wrapRef wid,
    { s with
      wrappers := (wid, ⟨'!', t⟩) :: s.wrappers
      nextId := wid + 1 })

/-- The body of the `reduce` in the source's `wrapType`: process the
marker characters left to right, threading the running type and state;
an unknown character raises `Error('Invalid wrapSpec character: ...')`. -/
def wrapTypeAux : TypeRef × WState → List Char → Except String (TypeRef × WState)
  | acc, [] => .ok acc
  | acc, specChar :: rest =>
    match specChar with
    | ']' => (GraphQLList acc.2 acc.1).bind (fun acc2 => wrapTypeAux acc2 rest)
    | '!' => (GraphQLNonNull acc.2 acc.1).bind (fun acc2 => wrapTypeAux acc2 rest)
    | c => .error ("Invalid wrapSpec character: " ++ String.singleton c)

/-- `wrapType(ofType, wrapSpec)` from the source:
`invariant(wrapSpec !== '')`, then fold the characters of `wrapSpec`
left to right starting from `ofType`. -/
def wrapType (s : WState) (ofType : TypeRef) (wrapSpec : String) :
    Except String (TypeRef × WState) :=
  if wrapSpec = "" then .error "Zero-length wrapSpec given."
  else wrapTypeAux (ofType, s) wrapSpec.toList

/-- The source's `listProto.toString` / `nonNullProto.toString` composed
through the heap: a List renders as `'[' + String(ofType) + ']'`, a
NonNull as `String(ofType) + '!'`.  Modelled from the spec for the base
case: a named type renders as its display name.  Fuel bounds the
recursion; well-formed heaps are acyclic so enough fuel exists. -/
def typeToString (s : WState) : Nat → TypeRef → String
  | 0, _ => ""
  | _ + 1, .namedRef i =>
    match assoc s.namedObjs i with
    | some o => o.name
    | none => ""
  | fuel + 1, .wrapRef i =>
    match assoc s.wrappers i with
    | some w =>
      if w.specChar = ']' then "[" ++ typeToString s fuel w.ofType ++ "]"
      else typeToString s fuel w.ofType ++ "!"
    | none => ""

/-- Rendering of a type reference with the canonical fuel `nextId + 1`,
which suffices on well-formed heaps. -/
def render (s : WState) (r : TypeRef) : String :=
  typeToString s (s.nextId + 1) r

/-- Modelled from the spec: `getNamedType` "repeatedly strips List/NonNull
layers until a NamedType is reached, to arbitrary depth"; fuel-bounded
recursion through the heap. -/
def getNamedTypeAux (s : WState) : Nat → TypeRef → Option TypeRef
  | 0, _ => none
  | _ + 1, .namedRef i => some (.namedRef i)
  | fuel + 1, .wrapRef i =>
    match assoc s.wrappers i with
    | some w => getNamedTypeAux s fuel w.ofType
    | none => none

/-- Modelled from the spec: `getNamedType(type)` returns `undefined` when
`type` is absent, and otherwise the fully unwrapped named base. -/
def getNamedType (s : WState) (t : Option TypeRef) : Option TypeRef :=
  match t with
  | none => none
  | some r => getNamedTypeAux s (s.nextId + 1) r

/-- Modelled from the spec: `getNullableType(type)` returns `undefined`
when `type` is absent; when `type` is NonNull it returns the immediate
inner type (a single unwrap); otherwise it returns `type` unchanged. -/
def getNullableType (s : WState) (t : Option TypeRef) : Option TypeRef :=
  match t with
  | none => none
  | some r =>
    match r with
    | .wrapRef i =>
      match assoc s.wrappers i with
      | some w => if w.specChar = '!' then some w.ofType else some r
      | none => some r
    | .namedRef _ => some r

/-- Whether a named-type variant is an input base variant (Scalar, Enum,
InputObject), per the spec's classification table. -/
def inputBaseKind : NamedKind → Bool
  | .scalar => true
  | .enum => true
  | .inputObject => true
  | _ => false

/-- Whether a named-type variant is an output base variant (Scalar,
Object, Interface, Union, Enum), per the spec's classification table. -/
def outputBaseKind : NamedKind → Bool
  | .scalar => true
  | .object => true
  | .interface => true
  | .union => true
  | .enum => true
  | .inputObject => false

/-- Modelled from the spec: `isInputType` is true for Scalar, Enum,
InputObject, or a List/NonNull whose immediate inner type is itself an
input type (recursive); fuel-bounded recursion through the heap. -/
def isInputTypeAux (s : WState) : Nat → TypeRef → Bool
  | 0, _ => false
  | _ + 1, .namedRef i =>
    match assoc s.namedObjs i with
    | some o => inputBaseKind o.kind
    | none => false
  | fuel + 1, .wrapRef i =>
    match assoc s.wrappers i with
    | some w => isInputTypeAux s fuel w.ofType
    | none => false

/-- `isInputType` at the canonical fuel. -/
def isInputType (s : WState) (r : TypeRef) : Bool :=
  isInputTypeAux s (s.nextId + 1) r

/-- Modelled from the spec: `isOutputType` is true for Scalar, Object,
Interface, Union, Enum, or a List/NonNull whose immediate inner type is
itself an output type (recursive). -/
def isOutputTypeAux (s : WState) : Nat → TypeRef → Bool
  | 0, _ => false
  | _ + 1, .namedRef i =>
    match assoc s.namedObjs i with
    | some o => outputBaseKind o.kind
    | none => false
  | fuel + 1, .wrapRef i =>
    match assoc s.wrappers i with
    | some w => isOutputTypeAux s fuel w.ofType
    | none => false

/-- `isOutputType` at the canonical fuel. -/
def isOutputType (s : WState) (r : TypeRef) : Bool :=
  isOutputTypeAux s (s.nextId + 1) r

/-- Modelled from the spec: the named-variant predicate for a given base
kind — true iff the reference is a live named type of exactly that
variant (no unwrapping). -/
def isNamedKind (s : WState) (k : NamedKind) (r : TypeRef) : Bool :=
  match r with
  | .namedRef i =>
    match assoc s.namedObjs i with
    | some o => o.kind = k
    | none => false
  | .wrapRef _ => false

/-- `isScalarType`, modelled from the spec. -/
def isScalarType (s : WState) (r : TypeRef) : Bool := isNamedKind s .scalar r

/-- `isObjectType`, modelled from the spec. -/
def isObjectType (s : WState) (r : TypeRef) : Bool := isNamedKind s .object r

/-- `isInterfaceType`, modelled from the spec. -/
def isInterfaceType (s : WState) (r : TypeRef) : Bool := isNamedKind s .interface r

/-- `isUnionType`, modelled from the spec. -/
def isUnionType (s : WState) (r : TypeRef) : Bool := isNamedKind s .union r

/-- `isEnumType`, modelled from the spec. -/
def isEnumType (s : WState) (r : TypeRef) : Bool := isNamedKind s .enum r

/-- `isInputObjectType`, modelled from the spec. -/
def isInputObjectType (s : WState) (r : TypeRef) : Bool := isNamedKind s .inputObject r

/-- The 8 base-variant predicates of the classifier, in the spec's order. -/
def basePredicates (s : WState) (r : TypeRef) : List Bool :=
  [isScalarType s r, isObjectType s r, isInterfaceType s r, isUnionType s r,
   isEnumType s r, isInputObjectType s r, isListType s r, isNonNullType s r]

/-- Heap condition on a wrapper's stored inner reference: it must point at
an already-existing object, and wrapper-to-wrapper references go strictly
downward in identity (wrappers are always built over pre-existing types,
so the heap is acyclic). -/
def innerOkB (s : WState) (i : Nat) : TypeRef → Bool
  | .namedRef n => (assoc s.namedObjs n).isSome
  | .wrapRef j => decide (j < i) && (assoc s.wrappers j).isSome

/-- Well-formedness of a heap state, as a decidable Boolean check:
every wrapper has an identity below `nextId`, a spec character from the
two-letter alphabet, and a live, strictly older inner type; every cache
slot points at a live wrapper of the recorded kind over the recorded
inner type. -/
def wfB (s : WState) : Bool :=
  s.wrappers.all (fun p =>
    decide (p.1 < s.nextId) &&
    decide (p.2.specChar = ']' ∨ p.2.specChar = '!') &&
    innerOkB s p.1 p.2.ofType) &&
  s.cache.all (fun pc => pc.2.all (fun q =>
    decide (assoc s.wrappers q.2 = some ⟨q.1, pc.1⟩)))

/-- Well-formedness as a proposition. -/
abbrev Wf (s : WState) : Prop := wfB s = true

/-- The pure shape of a type value, used as the denotation of a heap
reference: the named base carries both its identity and its record. -/
inductive GTree
  | named (n : Nat) (o : NamedObj)
  | list (t : GTree)
  | nonNull (t : GTree)
deriving DecidableEq

/-- The identity of the named base at the bottom of a shape. -/
def GTree.baseId : GTree → Nat
  | .named n _ => n
  | .list t => t.baseId
  | .nonNull t => t.baseId

/-- The named record at the bottom of a shape. -/
def GTree.baseObj : GTree → NamedObj
  | .named _ o => o
  | .list t => t.baseObj
  | .nonNull t => t.baseObj

/-- The rendering of a shape: a List renders as `[inner]`, a NonNull as
`inner!`, a named base as its name. -/
def renderTree : GTree → String
  | .named _ o => o.name
  | .list t => "[" ++ renderTree t ++ "]"
  | .nonNull t => renderTree t ++ "!"

/-- A heap reference denotes a shape: named references denote their
record, and wrapper references denote the List/NonNull wrapping (by the
stored spec character) of their inner type's shape. -/
inductive Denotes (s : WState) : TypeRef → GTree → Prop
  | named (n : Nat) (o : NamedObj) (h : assoc s.namedObjs n = some o) :
      Denotes s (.namedRef n) (.named n o)
  | list (i : Nat) (w : Wrapper) (t : GTree)
      (h : assoc s.wrappers i = some w) (hc : w.specChar = ']')
      (ht : Denotes s w.ofType t) : Denotes s (.wrapRef i) (.list t)
  | nonNull (i : Nat) (w : Wrapper) (t : GTree)
      (h : assoc s.wrappers i = some w) (hc : w.specChar = '!')
      (ht : Denotes s w.ofType t) : Denotes s (.wrapRef i) (.nonNull t)

/-- State evolution: the factories only allocate fresh wrappers, so the
named table is unchanged, the fresh counter grows, and every existing
wrapper binding survives. -/
def Extends (s s' : WState) : Prop :=
  s'.namedObjs = s.namedObjs ∧ s.nextId ≤ s'.nextId ∧
  ∀ i w, assoc s.wrappers i = some w → assoc s'.wrappers i = some w

/-- The cache slot for a given inner type and wrapper kind: the identity
of the memoized wrapper, when one has been made. -/
def cacheAt (s : WState) (ofType : TypeRef) (c : Char) : Option Nat :=
  match assoc s.cache ofType with
  | some m => assoc m c
  | none => none

/-- Legality of a marker sequence, tracking whether the running type is
currently NonNull (`bang`): `']'` is always legal and yields a nullable
List; `'!'` is legal only when the running type is nullable; any other
character is illegal. -/
def legalSpec : Bool → List Char → Bool
  | _, [] => true
  | bang, c :: rest =>
    if c = ']' then legalSpec false rest
    else if c = '!' then !bang && legalSpec true rest
    else false

/-- A concrete starting heap mirroring the fixture types of the source's
test suite: one named object per base variant, no wrappers, empty cache.
Identities 0 and 3 are two distinct Object types sharing the display
name "Object". -/
def sampleState : WState :=
  { namedObjs :=
      [(0, ⟨.object, "Object"⟩), (1, ⟨.inputObject, "InputObject"⟩),
       (2, ⟨.scalar, "String"⟩), (3, ⟨.object, "Object"⟩),
       (4, ⟨.interface, "Interface"⟩), (5, ⟨.union, "Union"⟩),
       (6, ⟨.enum, "Enum"⟩)]
    wrappers := []
    cache := []
    nextId := 0 }

/-- A concrete heap that already holds one NonNull wrapper (identity 0)
over the Object type, as produced by a previous factory call. -/
def sampleStateNN : WState :=
  { namedObjs := [(0, ⟨.object, "Object"⟩)]
    wrappers := [(0, ⟨'!', .namedRef 0⟩)]
    cache := [(.namedRef 0, [('!', 0)])]
    nextId := 1 }

/-- Whether the top of a shape is a NonNull wrapper. -/
def GTree.isNonNull : GTree → Bool
  | .nonNull _ => true
  | _ => false

/-- Fuel bound for walking the `ofType` chain from a reference: on a
well-formed heap, wrapper identities strictly decrease along the chain,
so any fuel above this bound makes the fuel-indexed walkers total. -/
def refBound : TypeRef → Nat
  | .namedRef _ => 0
  | .wrapRef i => i + 1

theorem assoc_mem {α β : Type} [DecidableEq α] {l : List (α × β)} {a : α} {b : β}
    (h : assoc l a = some b) : (a, b) ∈ l := by
  induction l with
  | nil => simp [assoc] at h
  | cons p rest ih =>
    obtain ⟨k, v⟩ := p
    by_cases hk : k = a
    · subst hk
      simp [assoc] at h
      subst h
      exact List.mem_cons_self _ _
    · rw [assoc, if_neg hk] at h
      exact List.mem_cons_of_mem _ (ih h)

theorem assoc_cons_self {α β : Type} [DecidableEq α] {l : List (α × β)} {a : α} {b : β} :
    assoc ((a, b) :: l) a = some b := by
  simp [assoc]

theorem assoc_cons_ne {α β : Type} [DecidableEq α] {l : List (α × β)} {k a : α} {v : β}
    (h : k ≠ a) : assoc ((k, v) :: l) a = assoc l a := by
  rw [assoc, if_neg h]

theorem assoc_setAssoc_self {α β : Type} [DecidableEq α] {a : α} {b : β} :
    ∀ (l : List (α × β)), assoc (setAssoc l a b) a = some b := by
  intro l
  induction l with
  | nil => simp [setAssoc, assoc]
  | cons p rest ih =>
    obtain ⟨k, v⟩ := p
    by_cases hk : k = a
    · subst hk
      rw [setAssoc, if_pos rfl]
      exact assoc_cons_self
    · rw [setAssoc, if_neg hk, assoc_cons_ne hk]
      exact ih

theorem assoc_setAssoc_ne {α β : Type} [DecidableEq α] {a x : α} {b : β}
    (h : x ≠ a) : ∀ (l : List (α × β)), assoc (setAssoc l a b) x = assoc l x := by
  intro l
  induction l with
  | nil =>
    rw [setAssoc, assoc_cons_ne (Ne.symm h)]
  | cons p rest ih =>
    obtain ⟨k, v⟩ := p
    by_cases hk : k = a
    · subst hk
      rw [setAssoc, if_pos rfl, assoc_cons_ne (fun he => h he.symm), assoc_cons_ne (fun he => h he.symm)]
    · rw [setAssoc, if_neg hk]
      by_cases hx : k = x
      · subst hx
        rw [assoc_cons_self, assoc_cons_self]
      · rw [assoc_cons_ne hx, assoc_cons_ne hx]
        exact ih

theorem mem_setAssoc {α β : Type} [DecidableEq α] {a : α} {b : β} {p : α × β} :
    ∀ {l : List (α × β)}, p ∈ setAssoc l a b → p = (a, b) ∨ p ∈ l := by
  intro l
  induction l with
  | nil => simp [setAssoc]
  | cons q rest ih =>
    obtain ⟨k, v⟩ := q
    by_cases hk : k = a
    · subst hk
      rw [setAssoc, if_pos rfl]
      intro h
      rcases List.mem_cons.mp h with h | h
      · exact Or.inl h
      · exact Or.inr (List.mem_cons_of_mem _ h)
    · rw [setAssoc, if_neg hk]
      intro h
      rcases List.mem_cons.mp h with h | h
      · exact Or.inr (h ▸ List.mem_cons_self _ _)
      · rcases ih h with h | h
        · exact Or.inl h
        · exact Or.inr (List.mem_cons_of_mem _ h)

/-- Propositional characterization of heap well-formedness. -/
theorem wf_iff {s : WState} :
    Wf s ↔
      (∀ p ∈ s.wrappers,
        p.1 < s.nextId ∧ (p.2.specChar = ']' ∨ p.2.specChar = '!') ∧
        innerOkB s p.1 p.2.ofType = true) ∧
      (∀ pc ∈ s.cache, ∀ q ∈ pc.2,
        assoc s.wrappers q.2 = some ⟨q.1, pc.1⟩) := by
  simp [Wf, wfB, List.all_eq_true, and_assoc]

/-- Every wrapper binding in a well-formed heap has a fresh-bounded
identity, an alphabet spec character, and a live, strictly older inner
reference. -/
theorem wf_wrapper {s : WState} {i : Nat} {w : Wrapper} (hwf : Wf s)
    (h : assoc s.wrappers i = some w) :
    i < s.nextId ∧ (w.specChar = ']' ∨ w.specChar = '!') ∧
    innerOkB s i w.ofType = true :=
  (wf_iff.mp hwf).1 (i, w) (assoc_mem h)

/-- Every cache slot in a well-formed heap points at a live wrapper of the
recorded kind over the recorded inner type. -/
theorem wf_cacheAt {s : WState} {ofT : TypeRef} {c : Char} {wid : Nat} (hwf : Wf s)
    (h : cacheAt s ofT c = some wid) :
    assoc s.wrappers wid = some ⟨c, ofT⟩ := by
  unfold cacheAt at h
  rcases hm : assoc s.cache ofT with _ | m
  · rw [hm] at h
    exact absurd h (by simp)
  · rw [hm] at h
    exact (wf_iff.mp hwf).2 (ofT, m) (assoc_mem hm) (c, wid) (assoc_mem h)

theorem extends_refl (s : WState) : Extends s s :=
  ⟨rfl, le_refl _, fun _ _ h => h⟩

theorem extends_trans {s1 s2 s3 : WState} (h1 : Extends s1 s2) (h2 : Extends s2 s3) :
    Extends s1 s3 :=
  ⟨h2.1.trans h1.1, le_trans h1.2.1 h2.2.1, fun i w h => h2.2.2 i w (h1.2.2 i w h)⟩

theorem isTypeRef_extends {s s' : WState} {r : TypeRef} (he : Extends s s')
    (h : isTypeRef s r = true) : isTypeRef s' r = true := by
  cases r with
  | namedRef i => simpa [isTypeRef, he.1] using h
  | wrapRef i =>
    simp only [isTypeRef, Option.isSome_iff_exists] at h ⊢
    obtain ⟨w, hw⟩ := h
    exact ⟨w, he.2.2 i w hw⟩

theorem isNonNullType_extends {s s' : WState} {r : TypeRef} (he : Extends s s')
    (h : isTypeRef s r = true) : isNonNullType s' r = isNonNullType s r := by
  cases r with
  | namedRef i => simp [isNonNullType]
  | wrapRef i =>
    simp only [isTypeRef, Option.isSome_iff_exists] at h
    obtain ⟨w, hw⟩ := h
    simp [isNonNullType, hw, he.2.2 i w hw]

theorem denotes_extends {s s' : WState} {r : TypeRef} {t : GTree} (he : Extends s s')
    (hd : Denotes s r t) : Denotes s' r t := by
  induction hd with
  | named n o h =>
    refine Denotes.named n o ?_
    rw [he.1]
    exact h
  | list i w t h hc ht ih => exact Denotes.list i w t (he.2.2 i w h) hc ih
  | nonNull i w t h hc ht ih => exact Denotes.nonNull i w t (he.2.2 i w h) hc ih

theorem denotes_isTypeRef {s : WState} {r : TypeRef} {t : GTree}
    (hd : Denotes s r t) : isTypeRef s r = true := by
  cases hd with
  | named n o h => simp [isTypeRef, h]
  | list i w t h hc ht => simp [isTypeRef, h]
  | nonNull i w t h hc ht => simp [isTypeRef, h]

theorem denotes_isNonNullType {s : WState} {r : TypeRef} {t : GTree}
    (hd : Denotes s r t) : isNonNullType s r = t.isNonNull := by
  cases hd with
  | named n o h => simp [isNonNullType, GTree.isNonNull]
  | list i w t h hc ht => simp [isNonNullType, h, hc, GTree.isNonNull]
  | nonNull i w t h hc ht => simp [isNonNullType, h, hc, GTree.isNonNull]

theorem denotes_isListType {s : WState} {r : TypeRef} {t : GTree}
    (hd : Denotes s r t) :
    isListType s r = (match t with | .list _ => true | _ => false) := by
  cases hd with
  | named n o h => simp [isListType]
  | list i w t h hc ht => simp [isListType, h, hc]
  | nonNull i w t h hc ht => simp [isListType, h, hc]

theorem assoc_cons_fresh {s : WState} (hwf : Wf s) {i : Nat} {w : Wrapper} (v : Wrapper)
    (h : assoc s.wrappers i = some w) :
    assoc ((s.nextId, v) :: s.wrappers) i = some w := by
  have hi := (wf_wrapper hwf h).1
  rw [assoc_cons_ne (Nat.ne_of_gt hi)]
  exact h

/-- Allocating a fresh wrapper over a live inner type, together with the
matching cache-slot write, preserves heap well-formedness. -/
theorem wf_addWrapper {s : WState} {ofT : TypeRef} {c : Char}
    (hwf : Wf s) (hT : isTypeRef s ofT = true) (hc : c = ']' ∨ c = '!') :
    Wf { s with
      wrappers := (s.nextId, ⟨c, ofT⟩) :: s.wrappers
      cache := setAssoc s.cache ofT (setAssoc ((assoc s.cache ofT).getD []) c s.nextId)
      nextId := s.nextId + 1 } := by
  obtain ⟨hwrap, hcache⟩ := wf_iff.mp hwf
  rw [wf_iff]
  constructor
  · intro p hp
    rcases List.mem_cons.mp hp with hp | hp
    · subst hp
      refine ⟨Nat.lt_succ_self _, hc, ?_⟩
      cases ofT with
      | namedRef n => simpa [innerOkB, isTypeRef] using hT
      | wrapRef j =>
        simp only [isTypeRef, Option.isSome_iff_exists] at hT
        obtain ⟨w, hw⟩ := hT
        have hj := (wf_wrapper hwf hw).1
        simp only [innerOkB]
        rw [assoc_cons_ne (Nat.ne_of_gt hj)]
        simp [hj, hw]
    · obtain ⟨h1, h2, h3⟩ := hwrap p hp
      refine ⟨Nat.lt_succ_of_lt h1, h2, ?_⟩
      cases hof : p.2.ofType with
      | namedRef n =>
        rw [hof] at h3
        simpa [innerOkB] using h3
      | wrapRef j =>
        rw [hof] at h3
        simp only [innerOkB, Bool.and_eq_true, decide_eq_true_eq,
          Option.isSome_iff_exists] at h3
        obtain ⟨hj, w, hw⟩ := h3
        simp only [innerOkB, Bool.and_eq_true, decide_eq_true_eq,
          Option.isSome_iff_exists]
        exact ⟨hj, w, assoc_cons_fresh hwf _ hw⟩
  · intro pc hpc q hq
    rcases mem_setAssoc hpc with hpc' | hpc'
    · subst hpc'
      simp only at hq
      rcases mem_setAssoc hq with hq' | hq'
      · subst hq'
        exact assoc_cons_self
      · rcases hm : assoc s.cache ofT with _ | m
        · rw [hm] at hq'
          simp at hq'
        · rw [hm] at hq'
          simp only [Option.getD_some] at hq'
          have := hcache (ofT, m) (assoc_mem hm) q hq'
          exact assoc_cons_fresh hwf _ this
    · have := hcache pc hpc' q hq
      exact assoc_cons_fresh hwf _ this

/-- Cache hit: when the slot for `(ofType, specChar)` is filled,
`lookupOrMake` returns the stored wrapper and leaves the state untouched. -/
theorem lookupOrMake_hit {s : WState} {ofT : TypeRef} {c : Char} {wid : Nat}
    (h : cacheAt s ofT c = some wid) :
    lookupOrMake s ofT c = (.wrapRef wid, s) := by
  unfold cacheAt at h
  rcases hm : assoc s.cache ofT with _ | m
  · rw [hm] at h
    simp at h
  · rw [hm] at h
    have h2 : assoc m c = some wid := h
    simp [lookupOrMake, hm, h2]

/-- Cache miss: when the slot is empty, `lookupOrMake` allocates the next
fresh identity as the wrapper and records it in the slot. -/
theorem lookupOrMake_miss {s : WState} {ofT : TypeRef} {c : Char}
    (h : cacheAt s ofT c = none) :
    lookupOrMake s ofT c =
      (.wrapRef s.nextId,
        { s with
          wrappers := (s.nextId, ⟨c, ofT⟩) :: s.wrappers
          cache := setAssoc s.cache ofT
            (setAssoc ((assoc s.cache ofT).getD []) c s.nextId)
          nextId := s.nextId + 1 }) := by
  unfold cacheAt at h
  rcases hm : assoc s.cache ofT with _ | m
  · have hn : assoc ((assoc s.cache ofT).getD []) c = (none : Option Nat) := by
      rw [hm]
      simp [assoc]
    simp [lookupOrMake, hm, assoc]
  · rw [hm] at h
    have h2 : assoc m c = (none : Option Nat) := h
    simp [lookupOrMake, hm, h2]

/-- Allocating a fresh wrapper over a live inner type without touching the
cache (the `new` constructor path) also preserves well-formedness. -/
theorem wf_addWrapperPlain {s : WState} {ofT : TypeRef} {c : Char}
    (hwf : Wf s) (hT : isTypeRef s ofT = true) (hc : c = ']' ∨ c = '!') :
    Wf { s with
      wrappers := (s.nextId, ⟨c, ofT⟩) :: s.wrappers
      nextId := s.nextId + 1 } := by
  obtain ⟨hwrap, hcache⟩ := wf_iff.mp hwf
  rw [wf_iff]
  constructor
  · intro p hp
    rcases List.mem_cons.mp hp with hp | hp
    · subst hp
      refine ⟨Nat.lt_succ_self _, hc, ?_⟩
      cases ofT with
      | namedRef n => simpa [innerOkB, isTypeRef] using hT
      | wrapRef j =>
        simp only [isTypeRef, Option.isSome_iff_exists] at hT
        obtain ⟨w, hw⟩ := hT
        have hj := (wf_wrapper hwf hw).1
        simp only [innerOkB]
        rw [assoc_cons_ne (Nat.ne_of_gt hj)]
        simp [hj, hw]
    · obtain ⟨h1, h2, h3⟩ := hwrap p hp
      refine ⟨Nat.lt_succ_of_lt h1, h2, ?_⟩
      cases hof : p.2.ofType with
      | namedRef n =>
        rw [hof] at h3
        simpa [innerOkB] using h3
      | wrapRef j =>
        rw [hof] at h3
        simp only [innerOkB, Bool.and_eq_true, decide_eq_true_eq,
          Option.isSome_iff_exists] at h3
        obtain ⟨hj, w, hw⟩ := h3
        simp only [innerOkB, Bool.and_eq_true, decide_eq_true_eq,
          Option.isSome_iff_exists]
        exact ⟨hj, w, assoc_cons_fresh hwf _ hw⟩
  · intro pc hpc q hq
    have := hcache pc hpc q hq
    exact assoc_cons_fresh hwf _ this

theorem ok_bind {ε α β : Type} (a : α) (f : α → Except ε β) :
    (Except.ok a >>= f : Except ε β) = f a := rfl

/-- Factory `GraphQLList` on a live inner type reduces to the cache
lookup. -/
theorem GraphQLList_eq {s : WState} {ofT : TypeRef} (hT : isTypeRef s ofT = true) :
    GraphQLList s ofT = .ok (lookupOrMake s ofT ']') := by
  simp [GraphQLList, assertType, hT, ok_bind]

/-- Factory `GraphQLNonNull` on a live nullable inner type reduces to the
cache lookup. -/
theorem GraphQLNonNull_eq {s : WState} {ofT : TypeRef}
    (hT : isTypeRef s ofT = true) (hN : isNonNullType s ofT = false) :
    GraphQLNonNull s ofT = .ok (lookupOrMake s ofT '!') := by
  simp [GraphQLNonNull, assertNullableType, hT, hN, ok_bind]

/-- Factory `GraphQLList` on a live inner type: succeeds, returns a List
wrapper whose `ofType` is exactly the given inner reference, leaves a
well-formed extension of the heap, and fills the cache slot with the
returned wrapper. -/
theorem GraphQLList_spec {s : WState} {ofT : TypeRef}
    (hwf : Wf s) (hT : isTypeRef s ofT = true) :
    ∃ wid s',
      GraphQLList s ofT = .ok (.wrapRef wid, s') ∧
      assoc s'.wrappers wid = some ⟨']', ofT⟩ ∧
      Wf s' ∧ Extends s s' ∧
      cacheAt s' ofT ']' = some wid := by
  rcases hca : cacheAt s ofT ']' with _ | wid
  · refine ⟨s.nextId,
      { s with
        wrappers := (s.nextId, ⟨']', ofT⟩) :: s.wrappers
        cache := setAssoc s.cache ofT
          (setAssoc ((assoc s.cache ofT).getD []) ']' s.nextId)
        nextId := s.nextId + 1 }, ?_, ?_, ?_, ?_, ?_⟩
    · rw [GraphQLList_eq hT, lookupOrMake_miss hca]
    · exact assoc_cons_self
    · exact wf_addWrapper hwf hT (Or.inl rfl)
    · exact ⟨rfl, Nat.le_succ _, fun i w h => assoc_cons_fresh hwf _ h⟩
    · simp only [cacheAt, assoc_setAssoc_self]
  · refine ⟨wid, s, ?_, wf_cacheAt hwf hca, hwf, extends_refl s, hca⟩
    rw [GraphQLList_eq hT, lookupOrMake_hit hca]

/-- Factory `GraphQLNonNull` on a live nullable inner type: succeeds,
returns a NonNull wrapper whose `ofType` is exactly the given inner
reference, leaves a well-formed extension, and fills the cache slot. -/
theorem GraphQLNonNull_spec {s : WState} {ofT : TypeRef}
    (hwf : Wf s) (hT : isTypeRef s ofT = true) (hN : isNonNullType s ofT = false) :
    ∃ wid s',
      GraphQLNonNull s ofT = .ok (.wrapRef wid, s') ∧
      assoc s'.wrappers wid = some ⟨'!', ofT⟩ ∧
      Wf s' ∧ Extends s s' ∧
      cacheAt s' ofT '!' = some wid := by
  rcases hca : cacheAt s ofT '!' with _ | wid
  · refine ⟨s.nextId,
      { s with
        wrappers := (s.nextId, ⟨'!', ofT⟩) :: s.wrappers
        cache := setAssoc s.cache ofT
          (setAssoc ((assoc s.cache ofT).getD []) '!' s.nextId)
        nextId := s.nextId + 1 }, ?_, ?_, ?_, ?_, ?_⟩
    · rw [GraphQLNonNull_eq hT hN, lookupOrMake_miss hca]
    · exact assoc_cons_self
    · exact wf_addWrapper hwf hT (Or.inr rfl)
    · exact ⟨rfl, Nat.le_succ _, fun i w h => assoc_cons_fresh hwf _ h⟩
    · simp only [cacheAt, assoc_setAssoc_self]
  · refine ⟨wid, s, ?_, wf_cacheAt hwf hca, hwf, extends_refl s, hca⟩
    rw [GraphQLNonNull_eq hT hN, lookupOrMake_hit hca]

/-- Factory `GraphQLList` on a filled cache slot returns the stored
wrapper and leaves the state untouched. -/
theorem GraphQLList_hit {s : WState} {ofT : TypeRef} {wid : Nat}
    (hT : isTypeRef s ofT = true) (hca : cacheAt s ofT ']' = some wid) :
    GraphQLList s ofT = .ok (.wrapRef wid, s) := by
  rw [GraphQLList_eq hT, lookupOrMake_hit hca]

/-- Factory `GraphQLNonNull` on a filled cache slot returns the stored
wrapper and leaves the state untouched. -/
theorem GraphQLNonNull_hit {s : WState} {ofT : TypeRef} {wid : Nat}
    (hT : isTypeRef s ofT = true) (hN : isNonNullType s ofT = false)
    (hca : cacheAt s ofT '!' = some wid) :
    GraphQLNonNull s ofT = .ok (.wrapRef wid, s) := by
  rw [GraphQLNonNull_eq hT hN, lookupOrMake_hit hca]

/-- Factory `GraphQLList` produces a reference denoting the List wrapping
of the inner shape. -/
theorem GraphQLList_denotes {s : WState} {ofT : TypeRef} {t : GTree}
    (hwf : Wf s) (hd : Denotes s ofT t) :
    ∃ wid s',
      GraphQLList s ofT = .ok (.wrapRef wid, s') ∧
      Wf s' ∧ Extends s s' ∧
      Denotes s' (.wrapRef wid) (.list t) ∧
      assoc s'.wrappers wid = some ⟨']', ofT⟩ := by
  obtain ⟨wid, s', h1, h2, h3, h4, h5⟩ := GraphQLList_spec hwf (denotes_isTypeRef hd)
  exact ⟨wid, s', h1, h3, h4,
    Denotes.list wid ⟨']', ofT⟩ t h2 rfl (denotes_extends h4 hd), h2⟩

/-- Factory `GraphQLNonNull` on a nullable shape produces a reference
denoting the NonNull wrapping of the inner shape. -/
theorem GraphQLNonNull_denotes {s : WState} {ofT : TypeRef} {t : GTree}
    (hwf : Wf s) (hd : Denotes s ofT t) (hn : t.isNonNull = false) :
    ∃ wid s',
      GraphQLNonNull s ofT = .ok (.wrapRef wid, s') ∧
      Wf s' ∧ Extends s s' ∧
      Denotes s' (.wrapRef wid) (.nonNull t) ∧
      assoc s'.wrappers wid = some ⟨'!', ofT⟩ := by
  have hN : isNonNullType s ofT = false := by
    rw [denotes_isNonNullType hd, hn]
  obtain ⟨wid, s', h1, h2, h3, h4, h5⟩ :=
    GraphQLNonNull_spec hwf (denotes_isTypeRef hd) hN
  exact ⟨wid, s', h1, h3, h4,
    Denotes.nonNull wid ⟨'!', ofT⟩ t h2 rfl (denotes_extends h4 hd), h2⟩

/-- With fuel above the reference's identity bound, the fuel-indexed named
base walker returns exactly the named base of the denoted shape. -/
theorem getNamedTypeAux_denotes {s : WState} (hwf : Wf s) :
    ∀ {r : TypeRef} {t : GTree}, Denotes s r t → ∀ fuel, refBound r < fuel →
      getNamedTypeAux s fuel r = some (.namedRef t.baseId) := by
  intro r t hd
  induction hd with
  | named n o h =>
    intro fuel hf
    cases fuel with
    | zero => simp [refBound] at hf
    | succ f => simp [getNamedTypeAux, GTree.baseId]
  | list i w t h hc ht ih =>
    intro fuel hf
    cases fuel with
    | zero => simp [refBound] at hf
    | succ f =>
      simp only [getNamedTypeAux, h, GTree.baseId]
      apply ih
      have hin := (wf_wrapper hwf h).2.2
      simp only [refBound] at hf
      cases hof : w.ofType with
      | namedRef n => simp [refBound]; omega
      | wrapRef j =>
        rw [hof] at hin
        simp only [innerOkB, Bool.and_eq_true, decide_eq_true_eq] at hin
        simp only [refBound]
        omega
  | nonNull i w t h hc ht ih =>
    intro fuel hf
    cases fuel with
    | zero => simp [refBound] at hf
    | succ f =>
      simp only [getNamedTypeAux, h, GTree.baseId]
      apply ih
      have hin := (wf_wrapper hwf h).2.2
      simp only [refBound] at hf
      cases hof : w.ofType with
      | namedRef n => simp [refBound]; omega
      | wrapRef j =>
        rw [hof] at hin
        simp only [innerOkB, Bool.and_eq_true, decide_eq_true_eq] at hin
        simp only [refBound]
        omega
  
/-- On a well-formed heap, `getNamedType` of a denoting reference is the
(identity of the) named base instance of its shape. -/
theorem getNamedType_denotes {s : WState} {r : TypeRef} {t : GTree}
    (hwf : Wf s) (hd : Denotes s r t) :
    getNamedType s (some r) = some (.namedRef t.baseId) := by
  rw [getNamedType]
  apply getNamedTypeAux_denotes hwf hd
  cases hd with
  | named n o h => simp [refBound]
  | list i w t h hc ht =>
    have := (wf_wrapper hwf h).1
    simp only [refBound]
    omega
  | nonNull i w t h hc ht =>
    have := (wf_wrapper hwf h).1
    simp only [refBound]
    omega

theorem refBound_inner {s : WState} {i : Nat} {w : Wrapper} {f : Nat}
    (hwf : Wf s) (h : assoc s.wrappers i = some w) (hf : i < f) :
    refBound w.ofType < f := by
  have hin := (wf_wrapper hwf h).2.2
  cases hof : w.ofType with
  | namedRef n =>
    simp only [refBound]
    omega
  | wrapRef j =>
    rw [hof] at hin
    simp only [innerOkB, Bool.and_eq_true, decide_eq_true_eq] at hin
    simp only [refBound]
    omega

theorem refBound_lt {s : WState} {r : TypeRef} {t : GTree}
    (hwf : Wf s) (hd : Denotes s r t) : refBound r < s.nextId + 1 := by
  cases hd with
  | named n o h => simp [refBound]
  | list i w t h hc ht =>
    have := (wf_wrapper hwf h).1
    simp only [refBound]
    omega
  | nonNull i w t h hc ht =>
    have := (wf_wrapper hwf h).1
    simp only [refBound]
    omega

/-- With enough fuel, the recursive input-type classifier computes the
input membership of the named base variant of the denoted shape. -/
theorem isInputTypeAux_denotes {s : WState} (hwf : Wf s) :
    ∀ {r : TypeRef} {t : GTree}, Denotes s r t → ∀ fuel, refBound r < fuel →
      isInputTypeAux s fuel r = inputBaseKind t.baseObj.kind := by
  intro r t hd
  induction hd with
  | named n o h =>
    intro fuel hf
    cases fuel with
    | zero => simp [refBound] at hf
    | succ f => simp [isInputTypeAux, h, GTree.baseObj]
  | list i w t h hc ht ih =>
    intro fuel hf
    cases fuel with
    | zero => simp [refBound] at hf
    | succ f =>
      simp only [isInputTypeAux, h, GTree.baseObj]
      refine ih f (refBound_inner hwf h ?_)
      simp only [refBound] at hf
      omega
  | nonNull i w t h hc ht ih =>
    intro fuel hf
    cases fuel with
    | zero => simp [refBound] at hf
    | succ f =>
      simp only [isInputTypeAux, h, GTree.baseObj]
      refine ih f (refBound_inner hwf h ?_)
      simp only [refBound] at hf
      omega

/-- With enough fuel, the recursive output-type classifier computes the
output membership of the named base variant of the denoted shape. -/
theorem isOutputTypeAux_denotes {s : WState} (hwf : Wf s) :
    ∀ {r : TypeRef} {t : GTree}, Denotes s r t → ∀ fuel, refBound r < fuel →
      isOutputTypeAux s fuel r = outputBaseKind t.baseObj.kind := by
  intro r t hd
  induction hd with
  | named n o h =>
    intro fuel hf
    cases fuel with
    | zero => simp [refBound] at hf
    | succ f => simp [isOutputTypeAux, h, GTree.baseObj]
  | list i w t h hc ht ih =>
    intro fuel hf
    cases fuel with
    | zero => simp [refBound] at hf
    | succ f =>
      simp only [isOutputTypeAux, h, GTree.baseObj]
      refine ih f (refBound_inner hwf h ?_)
      simp only [refBound] at hf
      omega
  | nonNull i w t h hc ht ih =>
    intro fuel hf
    cases fuel with
    | zero => simp [refBound] at hf
    | succ f =>
      simp only [isOutputTypeAux, h, GTree.baseObj]
      refine ih f (refBound_inner hwf h ?_)
      simp only [refBound] at hf
      omega

/-- With enough fuel, the fuel-indexed renderer produces the structural
rendering of the denoted shape. -/
theorem typeToString_denotes {s : WState} (hwf : Wf s) :
    ∀ {r : TypeRef} {t : GTree}, Denotes s r t → ∀ fuel, refBound r < fuel →
      typeToString s fuel r = renderTree t := by
  intro r t hd
  induction hd with
  | named n o h =>
    intro fuel hf
    cases fuel with
    | zero => simp [refBound] at hf
    | succ f => simp [typeToString, h, renderTree]
  | list i w t h hc ht ih =>
    intro fuel hf
    cases fuel with
    | zero => simp [refBound] at hf
    | succ f =>
      have hb : refBound w.ofType < f := by
        refine refBound_inner hwf h ?_
        simp only [refBound] at hf
        omega
      simp [typeToString, h, hc, renderTree, ih f hb]
  | nonNull i w t h hc ht ih =>
    intro fuel hf
    cases fuel with
    | zero => simp [refBound] at hf
    | succ f =>
      have hb : refBound w.ofType < f := by
        refine refBound_inner hwf h ?_
        simp only [refBound] at hf
        omega
      simp [typeToString, h, hc, renderTree, ih f hb]

/-- On a well-formed heap, `render` of a denoting reference is the
structural rendering of its shape. -/
theorem render_denotes {s : WState} {r : TypeRef} {t : GTree}
    (hwf : Wf s) (hd : Denotes s r t) : render s r = renderTree t :=
  typeToString_denotes hwf hd _ (refBound_lt hwf hd)

/-- On a well-formed heap, `isInputType` of a denoting reference is input
membership of the named base variant of its shape. -/
theorem isInputType_denotes {s : WState} {r : TypeRef} {t : GTree}
    (hwf : Wf s) (hd : Denotes s r t) :
    isInputType s r = inputBaseKind t.baseObj.kind :=
  isInputTypeAux_denotes hwf hd _ (refBound_lt hwf hd)

/-- On a well-formed heap, `isOutputType` of a denoting reference is
output membership of the named base variant of its shape. -/
theorem isOutputType_denotes {s : WState} {r : TypeRef} {t : GTree}
    (hwf : Wf s) (hd : Denotes s r t) :
    isOutputType s r = outputBaseKind t.baseObj.kind :=
  isOutputTypeAux_denotes hwf hd _ (refBound_lt hwf hd)

/-- Claim C1: identity memoization of wrappers.  For a valid inner type
`X`, two factory calls `GraphQLList(X)` return the same instance (and the
second call does not change the heap), and likewise two calls
`GraphQLNonNull(X)`; the cache is keyed by the inner-type instance and
the wrapper kind: the NonNull wrapper of `X` differs from the List
wrapper of `X`, and the List wrapper of a different instance `Y` (even
one with the same name and structure) differs from the List wrapper of
`X`. -/
theorem wrapperFactoryMemoization (s : WState) (X Y : TypeRef)
    (hwf : Wf s) (hX : isTypeRef s X = true) (hXn : isNonNullType s X = false)
    (hY : isTypeRef s Y = true) (hXY : X ≠ Y) :
    ∃ r1 s1 q1 s2 p1 s3,
      GraphQLList s X = .ok (r1, s1) ∧
      GraphQLList s1 X = .ok (r1, s1) ∧
      GraphQLNonNull s1 X = .ok (q1, s2) ∧
      GraphQLNonNull s2 X = .ok (q1, s2) ∧
      q1 ≠ r1 ∧
      GraphQLList s2 Y = .ok (p1, s3) ∧
      p1 ≠ r1 := by
  obtain ⟨a, s1, hL1, hbA, hwf1, hext1, hcA⟩ := GraphQLList_spec hwf hX
  have hX1 : isTypeRef s1 X = true := isTypeRef_extends hext1 hX
  have hL2 : GraphQLList s1 X = .ok (.wrapRef a, s1) := GraphQLList_hit hX1 hcA
  have hXn1 : isNonNullType s1 X = false := by
    rw [isNonNullType_extends hext1 hX]
    exact hXn
  obtain ⟨b, s2, hN1, hbB, hwf2, hext2, hcB⟩ := GraphQLNonNull_spec hwf1 hX1 hXn1
  have hX2 : isTypeRef s2 X = true := isTypeRef_extends hext2 hX1
  have hXn2 : isNonNullType s2 X = false := by
    rw [isNonNullType_extends hext2 hX1]
    exact hXn1
  have hN2 : GraphQLNonNull s2 X = .ok (.wrapRef b, s2) :=
    GraphQLNonNull_hit hX2 hXn2 hcB
  have hbA2 : assoc s2.wrappers a = some ⟨']', X⟩ := hext2.2.2 a _ hbA
  have hba : (TypeRef.wrapRef b) ≠ (TypeRef.wrapRef a) := by
    intro hEq
    have hb : b = a := by
      injection hEq
    rw [hb, hbA2] at hbB
    simp at hbB
  have hY2 : isTypeRef s2 Y = true :=
    isTypeRef_extends hext2 (isTypeRef_extends hext1 hY)
  obtain ⟨cid, s3, hL3, hbC, hwf3, hext3, hcC⟩ := GraphQLList_spec hwf2 hY2
  have hbA3 : assoc s3.wrappers a = some ⟨']', X⟩ := hext3.2.2 a _ hbA2
  have hca2 : (TypeRef.wrapRef cid) ≠ (TypeRef.wrapRef a) := by
    intro hEq
    have hceq : cid = a := by
      injection hEq
    rw [hceq, hbA3] at hbC
    have hxy : X = Y := congrArg Wrapper.ofType (Option.some.inj hbC)
    exact hXY hxy
  exact ⟨.wrapRef a, s1, .wrapRef b, s2, .wrapRef cid, s3,
    hL1, hL2, hN1, hN2, hba, hL3, hca2⟩

/-- Concrete run of the memoization theorem on the sample heap, with two
distinct Object instances that share the name "Object". -/
theorem wrapperFactoryMemoization_witness :
    (Wf sampleState ∧
      isTypeRef sampleState (.namedRef 0) = true ∧
      isNonNullType sampleState (.namedRef 0) = false ∧
      isTypeRef sampleState (.namedRef 3) = true ∧
      (TypeRef.namedRef 0) ≠ (.namedRef 3)) ∧
    (∃ r1 s1 q1 s2 p1 s3,
      GraphQLList sampleState (.namedRef 0) = .ok (r1, s1) ∧
      GraphQLList s1 (.namedRef 0) = .ok (r1, s1) ∧
      GraphQLNonNull s1 (.namedRef 0) = .ok (q1, s2) ∧
      GraphQLNonNull s2 (.namedRef 0) = .ok (q1, s2) ∧
      q1 ≠ r1 ∧
      GraphQLList s2 (.namedRef 3) = .ok (p1, s3) ∧
      p1 ≠ r1) :=
  ⟨⟨by decide, by decide, by decide, by decide, by decide⟩,
    wrapperFactoryMemoization sampleState (.namedRef 0) (.namedRef 3)
      (by decide) (by decide) (by decide) (by decide) (by decide)⟩

theorem error_bind {ε α β : Type} (e : ε) (f : α → Except ε β) :
    (Except.error e >>= f : Except ε β) = .error e := rfl

/-- Claim C2: constructing NonNull over a value that is already a NonNull
type fails with a ValidationError, for both the factory call and the
`new` form; the failure is an error at construction and no wrapper value
is returned. -/
theorem nonNullOverNonNullFails (s : WState) (r : TypeRef)
    (h : isNonNullType s r = true) :
    GraphQLNonNull s r = .error "ValidationError: expected a GraphQL nullable type" ∧
    newGraphQLNonNull s r = .error "ValidationError: expected a GraphQL nullable type" := by
  constructor
  · simp [GraphQLNonNull, assertNullableType, h, error_bind]
  · simp [newGraphQLNonNull, assertNullableType, h, error_bind]

/-- Concrete run of the double-NonNull rejection on a heap holding a
NonNull wrapper. -/
theorem nonNullOverNonNullFails_witness :
    isNonNullType sampleStateNN (.wrapRef 0) = true ∧
    (GraphQLNonNull sampleStateNN (.wrapRef 0) =
      .error "ValidationError: expected a GraphQL nullable type" ∧
    newGraphQLNonNull sampleStateNN (.wrapRef 0) =
      .error "ValidationError: expected a GraphQL nullable type") :=
  ⟨by decide, nonNullOverNonNullFails sampleStateNN (.wrapRef 0) (by decide)⟩

theorem cacheAt_congr {s s' : WState} {x : TypeRef} {c : Char}
    (h : s'.cache = s.cache) : cacheAt s' x c = cacheAt s x c := by
  simp [cacheAt, h]

/-- `new GraphQLList` on a live inner type: allocates a fresh instance
with `ofType` the given reference, leaves the cache untouched, and
preserves well-formedness. -/
theorem newGraphQLList_spec {s : WState} {ofT : TypeRef}
    (hwf : Wf s) (hT : isTypeRef s ofT = true) :
    newGraphQLList s ofT = .ok (.wrapRef s.nextId,
      { s with
        wrappers := (s.nextId, ⟨']', ofT⟩) :: s.wrappers
        nextId := s.nextId + 1 }) ∧
    Wf { s with
        wrappers := (s.nextId, ⟨']', ofT⟩) :: s.wrappers
        nextId := s.nextId + 1 } ∧
    Extends s { s with
        wrappers := (s.nextId, ⟨']', ofT⟩) :: s.wrappers
        nextId := s.nextId + 1 } := by
  refine ⟨?_, wf_addWrapperPlain hwf hT (Or.inl rfl),
    rfl, Nat.le_succ _, fun i w h => assoc_cons_fresh hwf _ h⟩
  simp [newGraphQLList, assertType, hT, ok_bind]

/-- `new GraphQLNonNull` on a live nullable inner type: allocates a fresh
instance with `ofType` the given reference, leaves the cache untouched,
and preserves well-formedness. -/
theorem newGraphQLNonNull_spec {s : WState} {ofT : TypeRef}
    (hwf : Wf s) (hT : isTypeRef s ofT = true) (hN : isNonNullType s ofT = false) :
    newGraphQLNonNull s ofT = .ok (.wrapRef s.nextId,
      { s with
        wrappers := (s.nextId, ⟨'!', ofT⟩) :: s.wrappers
        nextId := s.nextId + 1 }) ∧
    Wf { s with
        wrappers := (s.nextId, ⟨'!', ofT⟩) :: s.wrappers
        nextId := s.nextId + 1 } ∧
    Extends s { s with
        wrappers := (s.nextId, ⟨'!', ofT⟩) :: s.wrappers
        nextId := s.nextId + 1 } := by
  refine ⟨?_, wf_addWrapperPlain hwf hT (Or.inr rfl),
    rfl, Nat.le_succ _, fun i w h => assoc_cons_fresh hwf _ h⟩
  simp [newGraphQLNonNull, assertNullableType, hT, hN, ok_bind]

/-- Existential form of `new GraphQLList`: a fresh wrapper at an
identity at or above the current fresh counter, cache untouched. -/
theorem newGraphQLList_fresh {s : WState} {ofT : TypeRef}
    (hwf : Wf s) (hT : isTypeRef s ofT = true) :
    ∃ b s2,
      newGraphQLList s ofT = .ok (.wrapRef b, s2) ∧
      assoc s2.wrappers b = some ⟨']', ofT⟩ ∧
      Wf s2 ∧ Extends s s2 ∧ s2.cache = s.cache ∧ s.nextId ≤ b := by
  obtain ⟨h1, h2, h3⟩ := newGraphQLList_spec hwf hT
  exact ⟨s.nextId, _, h1, assoc_cons_self, h2, h3, rfl, Nat.le_refl _⟩

/-- Existential form of `new GraphQLNonNull`: a fresh wrapper at an
identity at or above the current fresh counter, cache untouched. -/
theorem newGraphQLNonNull_fresh {s : WState} {ofT : TypeRef}
    (hwf : Wf s) (hT : isTypeRef s ofT = true) (hN : isNonNullType s ofT = false) :
    ∃ b s2,
      newGraphQLNonNull s ofT = .ok (.wrapRef b, s2) ∧
      assoc s2.wrappers b = some ⟨'!', ofT⟩ ∧
      Wf s2 ∧ Extends s s2 ∧ s2.cache = s.cache ∧ s.nextId ≤ b := by
  obtain ⟨h1, h2, h3⟩ := newGraphQLNonNull_spec hwf hT hN
  exact ⟨s.nextId, _, h1, assoc_cons_self, h2, h3, rfl, Nat.le_refl _⟩

/-- Claim C10: invoking the wrapper constructors with `new` bypasses the
memoization cache.  After a factory call has cached a wrapper for `X`,
`new GraphQLList(X)` (resp. `new GraphQLNonNull(X)`) validates `X` and
produces a fresh instance with `ofType` equal to `X` that is not
reference-equal to the cached instance; the cache is unchanged, so a
later factory call still returns the cached instance. -/
theorem newConstructorBypassesCache (s : WState) (X : TypeRef)
    (hwf : Wf s) (hX : isTypeRef s X = true) (hXn : isNonNullType s X = false) :
    ∃ a s1 b s2 c s3 d s4,
      GraphQLList s X = .ok (.wrapRef a, s1) ∧
      newGraphQLList s1 X = .ok (.wrapRef b, s2) ∧
      (TypeRef.wrapRef b) ≠ (.wrapRef a) ∧
      assoc s2.wrappers b = some ⟨']', X⟩ ∧
      s2.cache = s1.cache ∧
      GraphQLList s2 X = .ok (.wrapRef a, s2) ∧
      GraphQLNonNull s2 X = .ok (.wrapRef c, s3) ∧
      newGraphQLNonNull s3 X = .ok (.wrapRef d, s4) ∧
      (TypeRef.wrapRef d) ≠ (.wrapRef c) ∧
      assoc s4.wrappers d = some ⟨'!', X⟩ ∧
      s4.cache = s3.cache ∧
      GraphQLNonNull s4 X = .ok (.wrapRef c, s4) := by
  obtain ⟨a, s1, hL1, hbA, hwf1, hext1, hcA⟩ := GraphQLList_spec hwf hX
  have hX1 : isTypeRef s1 X = true := isTypeRef_extends hext1 hX
  obtain ⟨b, s2, hNew1, hbB, hwf2, hext2, hcEq2, hbGe⟩ := newGraphQLList_fresh hwf1 hX1
  have haLt : a < s1.nextId := (wf_wrapper hwf1 hbA).1
  have hba : (TypeRef.wrapRef b) ≠ (.wrapRef a) := by
    intro hEq
    have : b = a := by injection hEq
    omega
  have hX2 : isTypeRef s2 X = true := isTypeRef_extends hext2 hX1
  have hcA2 : cacheAt s2 X ']' = some a := by
    rw [cacheAt_congr hcEq2]
    exact hcA
  have hHit2 : GraphQLList s2 X = .ok (.wrapRef a, s2) := GraphQLList_hit hX2 hcA2
  have hXn2 : isNonNullType s2 X = false := by
    rw [isNonNullType_extends hext2 hX1, isNonNullType_extends hext1 hX]
    exact hXn
  obtain ⟨c, s3, hN1, hbC, hwf3, hext3, hcC⟩ := GraphQLNonNull_spec hwf2 hX2 hXn2
  have hX3 : isTypeRef s3 X = true := isTypeRef_extends hext3 hX2
  have hXn3 : isNonNullType s3 X = false := by
    rw [isNonNullType_extends hext3 hX2]
    exact hXn2
  obtain ⟨d, s4, hNew2, hbD, hwf4, hext4, hcEq4, hdGe⟩ := newGraphQLNonNull_fresh hwf3 hX3 hXn3
  have hcLt : c < s3.nextId := (wf_wrapper hwf3 hbC).1
  have hdc : (TypeRef.wrapRef d) ≠ (.wrapRef c) := by
    intro hEq
    have : d = c := by injection hEq
    omega
  have hX4 : isTypeRef s4 X = true := isTypeRef_extends hext4 hX3
  have hXn4 : isNonNullType s4 X = false := by
    rw [isNonNullType_extends hext4 hX3]
    exact hXn3
  have hcC4 : cacheAt s4 X '!' = some c := by
    rw [cacheAt_congr hcEq4]
    exact hcC
  have hHit4 : GraphQLNonNull s4 X = .ok (.wrapRef c, s4) :=
    GraphQLNonNull_hit hX4 hXn4 hcC4
  exact ⟨a, s1, b, s2, c, s3, d, s4, hL1, hNew1, hba, hbB, hcEq2, hHit2,
    hN1, hNew2, hdc, hbD, hcEq4, hHit4⟩

/-- Concrete run of the cache-bypass theorem on the sample heap. -/
theorem newConstructorBypassesCache_witness :
    (Wf sampleState ∧
      isTypeRef sampleState (.namedRef 0) = true ∧
      isNonNullType sampleState (.namedRef 0) = false) ∧
    (∃ a s1 b s2 c s3 d s4,
      GraphQLList sampleState (.namedRef 0) = .ok (.wrapRef a, s1) ∧
      newGraphQLList s1 (.namedRef 0) = .ok (.wrapRef b, s2) ∧
      (TypeRef.wrapRef b) ≠ (.wrapRef a) ∧
      assoc s2.wrappers b = some ⟨']', .namedRef 0⟩ ∧
      s2.cache = s1.cache ∧
      GraphQLList s2 (.namedRef 0) = .ok (.wrapRef a, s2) ∧
      GraphQLNonNull s2 (.namedRef 0) = .ok (.wrapRef c, s3) ∧
      newGraphQLNonNull s3 (.namedRef 0) = .ok (.wrapRef d, s4) ∧
      (TypeRef.wrapRef d) ≠ (.wrapRef c) ∧
      assoc s4.wrappers d = some ⟨'!', .namedRef 0⟩ ∧
      s4.cache = s3.cache ∧
      GraphQLNonNull s4 (.namedRef 0) = .ok (.wrapRef c, s4)) :=
  ⟨⟨by decide, by decide, by decide⟩,
    newConstructorBypassesCache sampleState (.namedRef 0)
      (by decide) (by decide) (by decide)⟩

theorem wrapTypeAux_nil (acc : TypeRef × WState) : wrapTypeAux acc [] = .ok acc := rfl

theorem wrapTypeAux_bracket (acc : TypeRef × WState) (rest : List Char) :
    wrapTypeAux acc (']' :: rest) =
      (GraphQLList acc.2 acc.1).bind (fun acc2 => wrapTypeAux acc2 rest) := rfl

theorem wrapTypeAux_bang (acc : TypeRef × WState) (rest : List Char) :
    wrapTypeAux acc ('!' :: rest) =
      (GraphQLNonNull acc.2 acc.1).bind (fun acc2 => wrapTypeAux acc2 rest) := rfl

theorem bind_ok_law {ε α β : Type} (a : α) (f : α → Except ε β) :
    Except.bind (Except.ok a) f = f a := rfl

theorem bind_error_law {ε α β : Type} (e : ε) (f : α → Except ε β) :
    Except.bind (Except.error e : Except ε α) f = .error e := rfl

theorem bind_pure_eq {ε α : Type} (x : Except ε α) : x.bind Except.ok = x := by
  cases x <;> rfl

/-- Claim C3: `wrapType(baseType, spec)` folds the spec left to right
starting from the base type (`"!]"` is NonNull first, then List), and on
an Object base type `wrapType(Object, "!]")` yields a List whose
`ofType` is a NonNull whose `ofType` is the original Object instance, so
`isListType` holds and `isNonNullType` fails on the result, and
`getNamedType` on it returns the original Object reference. -/
theorem wrapTypeBangBracket (s : WState) (n : Nat) (o : NamedObj)
    (hwf : Wf s) (hn : assoc s.namedObjs n = some o) (_ho : o.kind = .object) :
    wrapType s (.namedRef n) "!]" =
      Except.bind (GraphQLNonNull s (.namedRef n)) (fun a => GraphQLList a.2 a.1) ∧
    ∃ iL iN s',
      wrapType s (.namedRef n) "!]" = .ok (.wrapRef iL, s') ∧
      assoc s'.wrappers iL = some ⟨']', .wrapRef iN⟩ ∧
      assoc s'.wrappers iN = some ⟨'!', .namedRef n⟩ ∧
      isListType s' (.wrapRef iL) = true ∧
      isNonNullType s' (.wrapRef iL) = false ∧
      getNamedType s' (some (.wrapRef iL)) = some (.namedRef n) := by
  have htl : "!]".toList = ['!', ']'] := rfl
  have hne : ¬("!]" : String) = "" := by decide
  have hfold : wrapType s (.namedRef n) "!]" =
      Except.bind (GraphQLNonNull s (.namedRef n)) (fun a => GraphQLList a.2 a.1) := by
    rw [wrapType, if_neg hne, htl, wrapTypeAux_bang]
    congr 1
    funext a
    rw [wrapTypeAux_bracket]
    have hpt : (fun acc2 => wrapTypeAux acc2 []) =
        fun acc2 : TypeRef × WState => Except.ok acc2 := funext (fun acc2 => rfl)
    rw [hpt]
    exact bind_pure_eq _
  refine ⟨hfold, ?_⟩
  have hd0 : Denotes s (.namedRef n) (.named n o) := Denotes.named n o hn
  obtain ⟨iN, s1, hN, hwf1, hext1, hdN, hbN⟩ :=
    GraphQLNonNull_denotes hwf hd0 rfl
  obtain ⟨iL, s2, hL, hwf2, hext2, hdL, hbL⟩ := GraphQLList_denotes hwf1 hdN
  have hw : wrapType s (.namedRef n) "!]" = .ok (.wrapRef iL, s2) := by
    rw [hfold, hN, bind_ok_law]
    exact hL
  refine ⟨iL, iN, s2, hw, hbL, hext2.2.2 iN _ hbN, ?_, ?_, ?_⟩
  · simp [isListType, hbL]
  · simp [isNonNullType, hbL]
  · have := getNamedType_denotes hwf2 hdL
    simpa [GTree.baseId] using this

/-- Concrete run of the `"!]"` scenario on the sample heap's Object
type. -/
theorem wrapTypeBangBracket_witness :
    (Wf sampleState ∧
      assoc sampleState.namedObjs 0 = some ⟨.object, "Object"⟩ ∧
      NamedObj.kind ⟨.object, "Object"⟩ = .object) ∧
    (wrapType sampleState (.namedRef 0) "!]" =
      Except.bind (GraphQLNonNull sampleState (.namedRef 0))
        (fun a => GraphQLList a.2 a.1) ∧
    ∃ iL iN s',
      wrapType sampleState (.namedRef 0) "!]" = .ok (.wrapRef iL, s') ∧
      assoc s'.wrappers iL = some ⟨']', .wrapRef iN⟩ ∧
      assoc s'.wrappers iN = some ⟨'!', .namedRef 0⟩ ∧
      isListType s' (.wrapRef iL) = true ∧
      isNonNullType s' (.wrapRef iL) = false ∧
      getNamedType s' (some (.wrapRef iL)) = some (.namedRef 0)) :=
  ⟨⟨by decide, by decide, rfl⟩,
    wrapTypeBangBracket sampleState 0 ⟨.object, "Object"⟩
      (by decide) (by decide) rfl⟩

/-- Stepping the marker fold preserves the invariant: a legal remaining
spec over the current shape yields a successful fold ending in a
well-formed heap with a reference denoting some shape over the same
named base. -/
theorem wrapTypeAux_legal {l : List Char} :
    ∀ {s : WState} {r : TypeRef} {t : GTree},
      Wf s → Denotes s r t → legalSpec t.isNonNull l = true →
      ∃ r' s' t', wrapTypeAux (r, s) l = .ok (r', s') ∧
        Wf s' ∧ Denotes s' r' t' ∧ t'.baseId = t.baseId := by
  induction l with
  | nil =>
    intro s r t hwf hd _
    exact ⟨r, s, t, rfl, hwf, hd, rfl⟩
  | cons c rest ih =>
    intro s r t hwf hd hleg
    simp only [legalSpec] at hleg
    by_cases hc1 : c = ']'
    · subst hc1
      rw [if_pos rfl] at hleg
      obtain ⟨iL, s1, hL, hwf1, hext1, hdL, hbL⟩ := GraphQLList_denotes hwf hd
      obtain ⟨r', s', t', hstep, hwf', hd', hbase⟩ := ih hwf1 hdL hleg
      refine ⟨r', s', t', ?_, hwf', hd', hbase⟩
      rw [wrapTypeAux_bracket]
      show Except.bind (GraphQLList s r) _ = _
      rw [hL, bind_ok_law]
      exact hstep
    · by_cases hc2 : c = '!'
      · subst hc2
        rw [if_neg hc1, if_pos rfl, Bool.and_eq_true, Bool.not_eq_true'] at hleg
        obtain ⟨hnn, hleg2⟩ := hleg
        obtain ⟨iN, s1, hN, hwf1, hext1, hdN, hbN⟩ :=
          GraphQLNonNull_denotes hwf hd hnn
        obtain ⟨r', s', t', hstep, hwf', hd', hbase⟩ := ih hwf1 hdN hleg2
        refine ⟨r', s', t', ?_, hwf', hd', hbase⟩
        rw [wrapTypeAux_bang]
        show Except.bind (GraphQLNonNull s r) _ = _
        rw [hN, bind_ok_law]
        exact hstep
      · rw [if_neg hc1, if_neg hc2] at hleg
        exact absurd hleg (by simp)

/-- Claim C4: unwrap round-trip.  For every legal, non-empty marker spec
over the alphabet (respecting the no-double-NonNull rule) and every
named base type `X`, `wrapType(X, spec)` succeeds and
`getNamedType` of the result is the original instance `X`. -/
theorem wrapTypeGetNamedTypeRoundTrip (s : WState) (n : Nat) (o : NamedObj)
    (spec : String) (hwf : Wf s) (hn : assoc s.namedObjs n = some o)
    (hne : spec ≠ "") (hleg : legalSpec false spec.toList = true) :
    ∃ r' s', wrapType s (.namedRef n) spec = .ok (r', s') ∧
      getNamedType s' (some r') = some (.namedRef n) := by
  obtain ⟨r', s', t', hstep, hwf', hd', hbase⟩ :=
    wrapTypeAux_legal hwf (Denotes.named n o hn)
      (by simpa [GTree.isNonNull] using hleg)
  refine ⟨r', s', ?_, ?_⟩
  · rw [wrapType, if_neg hne]
    exact hstep
  · rw [getNamedType_denotes hwf' hd', hbase]
    simp [GTree.baseId]

/-- Concrete round trip on the sample heap with the legal spec `"!]!"`
(NonNull, then List, then NonNull). -/
theorem wrapTypeGetNamedTypeRoundTrip_witness :
    (Wf sampleState ∧
      assoc sampleState.namedObjs 0 = some ⟨.object, "Object"⟩ ∧
      ("!]!" : String) ≠ "" ∧
      legalSpec false "!]!".toList = true) ∧
    (∃ r' s', wrapType sampleState (.namedRef 0) "!]!" = .ok (r', s') ∧
      getNamedType s' (some r') = some (.namedRef 0)) :=
  ⟨⟨by decide, by decide, by decide, by decide⟩,
    wrapTypeGetNamedTypeRoundTrip sampleState 0 ⟨.object, "Object"⟩ "!]!"
      (by decide) (by decide) (by decide) (by decide)⟩

/-- Claim C5: rendering and structural distinctness.  A List wrapper made
by the factory renders as `'[' + rendering of inner + ']'` and a NonNull
wrapper as `rendering of inner + '!'` (first two conjuncts, for every
denoting inner type); consequently, for a nullable type `X`,
`List(NonNull(X))` and `NonNull(List(X))` are distinct instances with
renderings `"[X!]"` and `"[X]!"` respectively. -/
theorem wrapperRenderingDistinct (s : WState) (X : TypeRef) (tX : GTree)
    (hwf : Wf s) (hd : Denotes s X tX) (hXn : tX.isNonNull = false) :
    (∀ (s0 : WState) (r0 : TypeRef) (t0 : GTree) (y : TypeRef) (s1 : WState),
      Wf s0 → Denotes s0 r0 t0 → GraphQLList s0 r0 = .ok (y, s1) →
      render s1 y = "[" ++ render s0 r0 ++ "]") ∧
    (∀ (s0 : WState) (r0 : TypeRef) (t0 : GTree) (y : TypeRef) (s1 : WState),
      Wf s0 → Denotes s0 r0 t0 → t0.isNonNull = false →
      GraphQLNonNull s0 r0 = .ok (y, s1) →
      render s1 y = render s0 r0 ++ "!") ∧
    ∃ a s1 b s2 c s3 d s4,
      GraphQLNonNull s X = .ok (a, s1) ∧
      GraphQLList s1 a = .ok (b, s2) ∧
      GraphQLList s2 X = .ok (c, s3) ∧
      GraphQLNonNull s3 c = .ok (d, s4) ∧
      b ≠ d ∧
      render s4 b = "[" ++ render s X ++ "!]" ∧
      render s4 d = "[" ++ render s X ++ "]!" := by
  refine ⟨?_, ?_, ?_⟩
  · intro s0 r0 t0 y s1 hwf0 hd0 heq
    obtain ⟨wid, s1', heq', hwf1, hext1, hd1, hb1⟩ := GraphQLList_denotes hwf0 hd0
    rw [heq'] at heq
    obtain ⟨hy, hs⟩ := Prod.mk.injEq .. ▸ Except.ok.inj heq
    subst hy hs
    rw [render_denotes hwf1 hd1, render_denotes hwf0 hd0]
    rfl
  · intro s0 r0 t0 y s1 hwf0 hd0 hn0 heq
    obtain ⟨wid, s1', heq', hwf1, hext1, hd1, hb1⟩ := GraphQLNonNull_denotes hwf0 hd0 hn0
    rw [heq'] at heq
    obtain ⟨hy, hs⟩ := Prod.mk.injEq .. ▸ Except.ok.inj heq
    subst hy hs
    rw [render_denotes hwf1 hd1, render_denotes hwf0 hd0]
    rfl
  · obtain ⟨iN, s1, hN, hwf1, hext1, hdN, hbN⟩ := GraphQLNonNull_denotes hwf hd hXn
    obtain ⟨iLN, s2, hL1, hwf2, hext2, hdLN, hbLN⟩ := GraphQLList_denotes hwf1 hdN
    have hdX2 : Denotes s2 X tX := denotes_extends (extends_trans hext1 hext2) hd
    obtain ⟨iL, s3, hL2, hwf3, hext3, hdL, hbL⟩ := GraphQLList_denotes hwf2 hdX2
    obtain ⟨iNL, s4, hN2, hwf4, hext4, hdNL, hbNL⟩ :=
      GraphQLNonNull_denotes hwf3 hdL rfl
    have hbLN4 : assoc s4.wrappers iLN = some ⟨']', .wrapRef iN⟩ :=
      hext4.2.2 iLN _ (hext3.2.2 iLN _ hbLN)
    have hbd : (TypeRef.wrapRef iLN) ≠ (.wrapRef iNL) := by
      intro hEq
      have hid : iLN = iNL := by injection hEq
      rw [hid, hbNL] at hbLN4
      simp at hbLN4
    have hdB4 : Denotes s4 (.wrapRef iLN) (.list (.nonNull tX)) :=
      denotes_extends (extends_trans hext3 hext4) hdLN
    have hrX : render s X = renderTree tX := render_denotes hwf hd
    refine ⟨.wrapRef iN, s1, .wrapRef iLN, s2, .wrapRef iL, s3, .wrapRef iNL, s4,
      hN, hL1, hL2, hN2, hbd, ?_, ?_⟩
    · rw [render_denotes hwf4 hdB4, hrX]
      show ("[" ++ (renderTree tX ++ "!")) ++ "]" = ("[" ++ renderTree tX) ++ "!]"
      rw [← String.append_assoc, String.append_assoc ("[" ++ renderTree tX) "!" "]"]
      have hlit : ("!" : String) ++ "]" = "!]" := rfl
      rw [hlit]
    · rw [render_denotes hwf4 hdNL, hrX]
      show (("[" ++ renderTree tX) ++ "]") ++ "!" = ("[" ++ renderTree tX) ++ "]!"
      rw [String.append_assoc ("[" ++ renderTree tX) "]" "!"]
      have hlit : ("]" : String) ++ "!" = "]!" := rfl
      rw [hlit]

/-- Concrete run of the rendering and distinctness theorem on the sample
heap's Object type, whose rendering is `"Object"`. -/
theorem wrapperRenderingDistinct_witness :
    (Wf sampleState ∧
      Denotes sampleState (.namedRef 0) (.named 0 ⟨.object, "Object"⟩) ∧
      GTree.isNonNull (.named 0 ⟨.object, "Object"⟩) = false) ∧
    ((∀ (s0 : WState) (r0 : TypeRef) (t0 : GTree) (y : TypeRef) (s1 : WState),
      Wf s0 → Denotes s0 r0 t0 → GraphQLList s0 r0 = .ok (y, s1) →
      render s1 y = "[" ++ render s0 r0 ++ "]") ∧
    (∀ (s0 : WState) (r0 : TypeRef) (t0 : GTree) (y : TypeRef) (s1 : WState),
      Wf s0 → Denotes s0 r0 t0 → t0.isNonNull = false →
      GraphQLNonNull s0 r0 = .ok (y, s1) →
      render s1 y = render s0 r0 ++ "!") ∧
    ∃ a s1 b s2 c s3 d s4,
      GraphQLNonNull sampleState (.namedRef 0) = .ok (a, s1) ∧
      GraphQLList s1 a = .ok (b, s2) ∧
      GraphQLList s2 (.namedRef 0) = .ok (c, s3) ∧
      GraphQLNonNull s3 c = .ok (d, s4) ∧
      b ≠ d ∧
      render s4 b = "[" ++ render sampleState (.namedRef 0) ++ "!]" ∧
      render s4 d = "[" ++ render sampleState (.namedRef 0) ++ "]!") :=
  ⟨⟨by decide, Denotes.named 0 ⟨.object, "Object"⟩ (by decide), rfl⟩,
    wrapperRenderingDistinct sampleState (.namedRef 0) (.named 0 ⟨.object, "Object"⟩)
      (by decide) (Denotes.named 0 ⟨.object, "Object"⟩ (by decide)) rfl⟩

/-- On a well-formed heap every live reference denotes a shape (the heap
is acyclic and all inner references are live). -/
theorem denotes_total {s : WState} (hwf : Wf s) :
    ∀ (b : Nat) (r : TypeRef), refBound r ≤ b → isTypeRef s r = true →
      ∃ t, Denotes s r t := by
  intro b
  induction b using Nat.strong_induction_on with
  | _ b ih =>
    intro r hb ht
    cases r with
    | namedRef n =>
      simp only [isTypeRef, Option.isSome_iff_exists] at ht
      obtain ⟨o, ho⟩ := ht
      exact ⟨.named n o, Denotes.named n o ho⟩
    | wrapRef i =>
      simp only [isTypeRef, Option.isSome_iff_exists] at ht
      obtain ⟨w, hw⟩ := ht
      have hin := (wf_wrapper hwf hw).2.2
      have hchar := (wf_wrapper hwf hw).2.1
      have hbnd : refBound (.wrapRef i) ≤ b := hb
      simp only [refBound] at hbnd
      have hibLt : i < b := by omega
      have hinner : refBound w.ofType ≤ i ∧ isTypeRef s w.ofType = true := by
        cases hof : w.ofType with
        | namedRef m =>
          rw [hof] at hin
          simp only [innerOkB] at hin
          exact ⟨by simp [refBound], by simpa [isTypeRef] using hin⟩
        | wrapRef j =>
          rw [hof] at hin
          simp only [innerOkB, Bool.and_eq_true, decide_eq_true_eq] at hin
          refine ⟨?_, by simpa [isTypeRef] using hin.2⟩
          simp only [refBound]
          omega
      obtain ⟨t, hdt⟩ := ih i hibLt w.ofType hinner.1 hinner.2
      rcases hchar with hc | hc
      · exact ⟨.list t, Denotes.list i w t hw hc hdt⟩
      · exact ⟨.nonNull t, Denotes.nonNull i w t hw hc hdt⟩

/-- The recursive input classifier steps through one wrapper layer: a
wrapper is an input type exactly when its immediate inner type is. -/
theorem isInputType_step {s : WState} {i : Nat} {w : Wrapper}
    (hwf : Wf s) (hw : assoc s.wrappers i = some w) :
    isInputType s (.wrapRef i) = isInputType s w.ofType := by
  have hin := (wf_wrapper hwf hw).2.2
  have hinT : isTypeRef s w.ofType = true := by
    cases hof : w.ofType with
    | namedRef m =>
      rw [hof] at hin
      simpa [isTypeRef, innerOkB] using hin
    | wrapRef j =>
      rw [hof] at hin
      simp only [innerOkB, Bool.and_eq_true, decide_eq_true_eq] at hin
      simpa [isTypeRef] using hin.2
  obtain ⟨t, hdt⟩ := denotes_total hwf (refBound w.ofType) w.ofType (Nat.le_refl _) hinT
  have hchar := (wf_wrapper hwf hw).2.1
  rcases hchar with hc | hc
  · rw [isInputType_denotes hwf (Denotes.list i w t hw hc hdt),
      isInputType_denotes hwf hdt]
    rfl
  · rw [isInputType_denotes hwf (Denotes.nonNull i w t hw hc hdt),
      isInputType_denotes hwf hdt]
    rfl

/-- The recursive output classifier steps through one wrapper layer. -/
theorem isOutputType_step {s : WState} {i : Nat} {w : Wrapper}
    (hwf : Wf s) (hw : assoc s.wrappers i = some w) :
    isOutputType s (.wrapRef i) = isOutputType s w.ofType := by
  have hin := (wf_wrapper hwf hw).2.2
  have hinT : isTypeRef s w.ofType = true := by
    cases hof : w.ofType with
    | namedRef m =>
      rw [hof] at hin
      simpa [isTypeRef, innerOkB] using hin
    | wrapRef j =>
      rw [hof] at hin
      simp only [innerOkB, Bool.and_eq_true, decide_eq_true_eq] at hin
      simpa [isTypeRef] using hin.2
  obtain ⟨t, hdt⟩ := denotes_total hwf (refBound w.ofType) w.ofType (Nat.le_refl _) hinT
  have hchar := (wf_wrapper hwf hw).2.1
  rcases hchar with hc | hc
  · rw [isOutputType_denotes hwf (Denotes.list i w t hw hc hdt),
      isOutputType_denotes hwf hdt]
    rfl
  · rw [isOutputType_denotes hwf (Denotes.nonNull i w t hw hc hdt),
      isOutputType_denotes hwf hdt]
    rfl

/-- Claim C6: top-level exclusivity.  For every valid Type value (a live
named type or wrapper reference on a well-formed heap), exactly one of
the 8 base-variant predicates is true. -/
theorem basePredicateExclusivity (s : WState) (r : TypeRef)
    (hwf : Wf s) (ht : isTypeRef s r = true) :
    (basePredicates s r).count true = 1 := by
  cases r with
  | namedRef i =>
    simp only [isTypeRef, Option.isSome_iff_exists] at ht
    obtain ⟨o, ho⟩ := ht
    cases hk : o.kind <;>
      simp [basePredicates, isScalarType, isObjectType, isInterfaceType,
        isUnionType, isEnumType, isInputObjectType, isListType, isNonNullType,
        isNamedKind, ho, hk, List.count_cons]
  | wrapRef i =>
    simp only [isTypeRef, Option.isSome_iff_exists] at ht
    obtain ⟨w, hw⟩ := ht
    rcases (wf_wrapper hwf hw).2.1 with hc | hc <;>
      simp [basePredicates, isScalarType, isObjectType, isInterfaceType,
        isUnionType, isEnumType, isInputObjectType, isListType, isNonNullType,
        isNamedKind, hw, hc, List.count_cons]

/-- Concrete exclusivity checks on the sample heaps: a named type and a
NonNull wrapper. -/
theorem basePredicateExclusivity_witness :
    (Wf sampleState ∧ isTypeRef sampleState (.namedRef 0) = true) ∧
    (basePredicates sampleState (.namedRef 0)).count true = 1 :=
  ⟨⟨by decide, by decide⟩,
    basePredicateExclusivity sampleState (.namedRef 0) (by decide) (by decide)⟩

/-- Claim C7: recursive input/output classification.  On a well-formed
heap: a named type is an input (resp. output) type exactly per its base
variant; a wrapper is an input (resp. output) type exactly when its
immediate inner type is; and for an InputObject type `IO`,
`isInputType(List(NonNull(IO)))` is true while
`isOutputType(List(NonNull(IO)))` is false. -/
theorem inputOutputClassification (s : WState) (n : Nat) (o : NamedObj)
    (hwf : Wf s) (hn : assoc s.namedObjs n = some o) (ho : o.kind = .inputObject) :
    (∀ (m : Nat) (q : NamedObj), assoc s.namedObjs m = some q →
      isInputType s (.namedRef m) = inputBaseKind q.kind ∧
      isOutputType s (.namedRef m) = outputBaseKind q.kind) ∧
    (∀ (i : Nat) (w : Wrapper), assoc s.wrappers i = some w →
      isInputType s (.wrapRef i) = isInputType s w.ofType ∧
      isOutputType s (.wrapRef i) = isOutputType s w.ofType) ∧
    isInputType s (.namedRef n) = true ∧
    isOutputType s (.namedRef n) = false ∧
    ∃ iN s1 iL s2,
      GraphQLNonNull s (.namedRef n) = .ok (.wrapRef iN, s1) ∧
      GraphQLList s1 (.wrapRef iN) = .ok (.wrapRef iL, s2) ∧
      isInputType s2 (.wrapRef iL) = true ∧
      isOutputType s2 (.wrapRef iL) = false := by
  refine ⟨?_, ?_, ?_, ?_, ?_⟩
  · intro m q hq
    constructor
    · simp [isInputType, isInputTypeAux, hq]
    · simp [isOutputType, isOutputTypeAux, hq]
  · intro i w hw
    exact ⟨isInputType_step hwf hw, isOutputType_step hwf hw⟩
  · rw [isInputType_denotes hwf (Denotes.named n o hn)]
    simp [GTree.baseObj, ho, inputBaseKind]
  · rw [isOutputType_denotes hwf (Denotes.named n o hn)]
    simp [GTree.baseObj, ho, outputBaseKind]
  · obtain ⟨iN, s1, hN, hwf1, hext1, hdN, hbN⟩ :=
      GraphQLNonNull_denotes hwf (Denotes.named n o hn) rfl
    obtain ⟨iL, s2, hL, hwf2, hext2, hdL, hbL⟩ := GraphQLList_denotes hwf1 hdN
    refine ⟨iN, s1, iL, s2, hN, hL, ?_, ?_⟩
    · rw [isInputType_denotes hwf2 hdL]
      simp [GTree.baseObj, ho, inputBaseKind]
    · rw [isOutputType_denotes hwf2 hdL]
      simp [GTree.baseObj, ho, outputBaseKind]

/-- Concrete run of the classification theorem on the sample heap's
InputObject type. -/
theorem inputOutputClassification_witness :
    (Wf sampleState ∧
      assoc sampleState.namedObjs 1 = some ⟨.inputObject, "InputObject"⟩ ∧
      NamedObj.kind ⟨.inputObject, "InputObject"⟩ = .inputObject) ∧
    (isInputType sampleState (.namedRef 1) = true ∧
    isOutputType sampleState (.namedRef 1) = false ∧
    ∃ iN s1 iL s2,
      GraphQLNonNull sampleState (.namedRef 1) = .ok (.wrapRef iN, s1) ∧
      GraphQLList s1 (.wrapRef iN) = .ok (.wrapRef iL, s2) ∧
      isInputType s2 (.wrapRef iL) = true ∧
      isOutputType s2 (.wrapRef iL) = false) :=
  ⟨⟨by decide, by decide, rfl⟩,
    ((inputOutputClassification sampleState 1 ⟨.inputObject, "InputObject"⟩
      (by decide) (by decide) rfl).2.2)⟩

theorem wrapTypeAux_badChar {c : Char} (h1 : c ≠ ']') (h2 : c ≠ '!') :
    ∀ (l : List Char) (acc : TypeRef × WState), c ∈ l →
      ∃ msg, wrapTypeAux acc l = .error msg := by
  intro l
  induction l with
  | nil =>
    intro acc hc
    simp at hc
  | cons d rest ih =>
    intro acc hc
    by_cases hd1 : d = ']'
    · subst hd1
      have hcr : c ∈ rest := by
        rcases List.mem_cons.mp hc with h | h
        · exact absurd h h1
        · exact h
      rw [wrapTypeAux_bracket]
      rcases hres : GraphQLList acc.2 acc.1 with e | acc2
      · exact ⟨e, by rw [bind_error_law]⟩
      · obtain ⟨msg, hm⟩ := ih acc2 hcr
        refine ⟨msg, ?_⟩
        rw [bind_ok_law]
        exact hm
    · by_cases hd2 : d = '!'
      · subst hd2
        have hcr : c ∈ rest := by
          rcases List.mem_cons.mp hc with h | h
          · exact absurd h h2
          · exact h
        rw [wrapTypeAux_bang]
        rcases hres : GraphQLNonNull acc.2 acc.1 with e | acc2
        · exact ⟨e, by rw [bind_error_law]⟩
        · obtain ⟨msg, hm⟩ := ih acc2 hcr
          refine ⟨msg, ?_⟩
          rw [bind_ok_law]
          exact hm
      · refine ⟨"Invalid wrapSpec character: " ++ String.singleton d, ?_⟩
        simp [wrapTypeAux, hd1, hd2]

/-- Claim C8: `wrapType` fails on the empty spec (with the source's
`Zero-length wrapSpec given.` invariant message) and fails on any spec
containing a character outside the two-symbol alphabet; in both cases an
error is returned rather than any partial wrapping result. -/
theorem wrapTypeInvalidSpec (s : WState) (r : TypeRef) (spec : String) (c : Char)
    (hc : c ∈ spec.toList) (h1 : c ≠ ']') (h2 : c ≠ '!') :
    wrapType s r "" = .error "Zero-length wrapSpec given." ∧
    ∃ msg, wrapType s r spec = .error msg := by
  constructor
  · rw [wrapType, if_pos rfl]
  · have hne : spec ≠ "" := by
      intro h
      subst h
      rw [show ("" : String).toList = ([] : List Char) from rfl] at hc
      simp at hc
    rw [wrapType, if_neg hne]
    exact wrapTypeAux_badChar h1 h2 _ _ hc

/-- Concrete failure of `wrapType` on the malformed spec `"]x"`. -/
theorem wrapTypeInvalidSpec_witness :
    ('x' ∈ ("]x" : String).toList ∧ ('x' : Char) ≠ ']' ∧ ('x' : Char) ≠ '!') ∧
    (wrapType sampleState (.namedRef 0) "" = .error "Zero-length wrapSpec given." ∧
    ∃ msg, wrapType sampleState (.namedRef 0) "]x" = .error msg) :=
  ⟨⟨by decide, by decide, by decide⟩,
    wrapTypeInvalidSpec sampleState (.namedRef 0) "]x" 'x'
      (by decide) (by decide) (by decide)⟩

/-- Claim C9: `getNullableType` returns `undefined` for an absent
argument; on a NonNull type it returns the immediate inner type (a
single unwrap, not recursive — on `NonNull(List(NonNull(X)))` it returns
`List(NonNull(X))`); on any other type it returns the argument itself
unchanged. -/
theorem getNullableTypeSpec (s : WState) (X : TypeRef) (tX : GTree)
    (hwf : Wf s) (hd : Denotes s X tX) (hXn : tX.isNonNull = false) :
    getNullableType s none = none ∧
    (∀ (r : TypeRef), isNonNullType s r = false →
      getNullableType s (some r) = some r) ∧
    (∀ (i : Nat) (w : Wrapper), assoc s.wrappers i = some w → w.specChar = '!' →
      getNullableType s (some (.wrapRef i)) = some w.ofType) ∧
    ∃ a s1 b s2 c s3,
      GraphQLNonNull s X = .ok (a, s1) ∧
      GraphQLList s1 a = .ok (b, s2) ∧
      GraphQLNonNull s2 b = .ok (c, s3) ∧
      getNullableType s3 (some c) = some b ∧
      getNullableType s3 (some b) = some b ∧
      getNullableType s3 (some a) = some X := by
  refine ⟨rfl, ?_, ?_, ?_⟩
  · intro r hr
    cases r with
    | namedRef m => rfl
    | wrapRef i =>
      rcases hw : assoc s.wrappers i with _ | w
      · simp [getNullableType, hw]
      · have hr' : ¬(w.specChar = '!') := by
          simp only [isNonNullType, hw] at hr
          simpa using hr
        simp [getNullableType, hw, hr']
  · intro i w hw hchar
    simp [getNullableType, hw, hchar]
  · obtain ⟨iA, s1, hN1, hwf1, hext1, hdA, hbA⟩ := GraphQLNonNull_denotes hwf hd hXn
    obtain ⟨iB, s2, hL1, hwf2, hext2, hdB, hbB⟩ := GraphQLList_denotes hwf1 hdA
    obtain ⟨iC, s3, hN2, hwf3, hext3, hdC, hbC⟩ :=
      GraphQLNonNull_denotes hwf2 hdB rfl
    have hbB3 : assoc s3.wrappers iB = some ⟨']', .wrapRef iA⟩ := hext3.2.2 iB _ hbB
    have hbA3 : assoc s3.wrappers iA = some ⟨'!', X⟩ :=
      hext3.2.2 iA _ (hext2.2.2 iA _ hbA)
    refine ⟨.wrapRef iA, s1, .wrapRef iB, s2, .wrapRef iC, s3, hN1, hL1, hN2,
      ?_, ?_, ?_⟩
    · simp [getNullableType, hbC]
    · simp [getNullableType, hbB3]
    · simp [getNullableType, hbA3]

/-- Concrete run of the `getNullableType` theorem on the sample heap's
Object type: one unwrap of `NonNull(List(NonNull(Object)))` gives
`List(NonNull(Object))`. -/
theorem getNullableTypeSpec_witness :
    (Wf sampleState ∧
      GTree.isNonNull (.named 0 ⟨.object, "Object"⟩) = false) ∧
    (getNullableType sampleState none = none ∧
    (∀ (r : TypeRef), isNonNullType sampleState r = false →
      getNullableType sampleState (some r) = some r) ∧
    (∀ (i : Nat) (w : Wrapper),
      assoc sampleState.wrappers i = some w → w.specChar = '!' →
      getNullableType sampleState (some (.wrapRef i)) = some w.ofType) ∧
    ∃ a s1 b s2 c s3,
      GraphQLNonNull sampleState (.namedRef 0) = .ok (a, s1) ∧
      GraphQLList s1 a = .ok (b, s2) ∧
      GraphQLNonNull s2 b = .ok (c, s3) ∧
      getNullableType s3 (some c) = some b ∧
      getNullableType s3 (some b) = some b ∧
      getNullableType s3 (some a) = some (.namedRef 0)) :=
  ⟨⟨by decide, rfl⟩,
    getNullableTypeSpec sampleState (.namedRef 0) (.named 0 ⟨.object, "Object"⟩)
      (by decide) (Denotes.named 0 ⟨.object, "Object"⟩ (by decide)) rfl⟩
